import Mathlib

/-!
Verification of the attendance-tracker record store and aggregator.

Shallow embedding of the source files:
 * `src/app/page.tsx` — `StorageService` (localStorage backend with SQLite
   fallback logic), `parseNames`, `addRecord`'s validation guard,
   `filteredRecords` and the `statistics` aggregation;
 * `src/app/api/records/route.ts` — the HTTP route handlers over SQLite;
 * `src/unnamed/part_000` — `SQLiteService` over the `records` table.

Effects are made explicit: `Date.now()` / `new Date().toISOString()` become
`now : Nat` / `nowIso : String` parameters, `localStorage` becomes a
`List StoredRecord` threaded through the operations, the SQLite database a
`DbState`, and a durable-backend (fetch) attempt an `Except String α` value
describing how the attempt ended.  JavaScript numbers used here are record
counters and half-day totals, embedded as `Nat` and `ℚ` (every value that
occurs is an exact multiple of 1/2, so `ℚ` agrees with IEEE doubles).
-/

/-- `type` column / field: `"overtime" | "leave"`. -/
inductive RecType
  | overtime
  | leave
deriving DecidableEq

/-- `duration` field: `"full" | "morning" | "afternoon"`. -/
inductive Duration
  | full
  | morning
  | afternoon
deriving DecidableEq

/-- A JSON identifier value: the TypeScript `id` is declared `number`, but
data deserialized from storage (and the `number | string` argument of
`StorageService.deleteRecord`) may be either a number or a string. -/
inductive JsonId
  | num (n : Nat)
  | str (s : String)
deriving DecidableEq

/-- JavaScript `.toString()` on an id value: decimal rendering of a number,
identity on a string. -/
def JsonId.toStr : JsonId → String
  | .num n => toString n
  | .str s => s

/-- The serialized string of a `type` value. -/
def typeStr : RecType → String
  | .overtime => "overtime"
  | .leave => "leave"

/-- A normalized `Record` as the UI sees one after a read: `duration` and
`created_at` are always present (getLocalRecords fills the defaults). -/
structure Record where
  id : Option JsonId
  names : List String
  date : String
  rtype : RecType
  duration : Duration
  created_at : String
deriving DecidableEq

/-- A record as it sits serialized in localStorage: legacy data may lack
`duration` and `created_at`. -/
structure StoredRecord where
  id : Option JsonId
  names : List String
  date : String
  rtype : RecType
  duration : Option Duration
  created_at : Option String
deriving DecidableEq

/-- `Omit<Record, "id">`: the draft passed to a create operation.  The
TypeScript type keeps `created_at` optional. -/
structure Draft where
  names : List String
  date : String
  rtype : RecType
  duration : Duration
  created_at : Option String
deriving DecidableEq

/-- JavaScript `a || b` on an optional string: `b` when `a` is absent *or*
the empty string — `""` is falsy, so `"" || b` evaluates to `b`. -/
def orElseStr (a : Option String) (b : String) : String :=
  match a with
  | none => b
  | some s => if s = "" then b else s

namespace StorageService

/-- `getLocalRecords` (page.tsx:102-115): parse the stored collection and
normalize legacy fields — `duration: record.duration || "full"`,
`created_at: record.created_at || new Date().toISOString()`. -/
def getLocalRecords (nowIso : String) (st : List StoredRecord) : List Record :=
  st.map fun record =>
    { id := record.id
      names := record.names
      date := record.date
      rtype := record.rtype
      duration := record.duration.getD .full
      created_at := record.created_at.getD nowIso }

/-- `JSON.stringify` of a normalized record: every field is present. -/
def toStored (r : Record) : StoredRecord :=
  { id := r.id
    names := r.names
    date := r.date
    rtype := r.rtype
    duration := some r.duration
    created_at := some r.created_at }

/-- `saveLocalRecord` (page.tsx:117-132): build
`{ id: Date.now(), ...record, created_at: record.created_at || new Date().toISOString() }`
— the `||` takes the caller's `created_at` only when it is present and
non-empty (an empty string is falsy, so the current time is stamped) —
prepend it to the existing (normalized) records and write the collection
back.  Returns the new record and the new stored collection. -/
def saveLocalRecord (record : Draft) (now : Nat) (nowIso : String)
    (st : List StoredRecord) : Record × List StoredRecord :=
  let newRecord : Record :=
    { id := some (.num now)
      names := record.names
      date := record.date
      rtype := record.rtype
      duration := record.duration
      created_at := orElseStr record.created_at nowIso }
  let existingRecords := getLocalRecords nowIso st
  let updatedRecords := newRecord :: existingRecords
  (newRecord, updatedRecords.map toStored)

/-- `deleteLocalRecord` (page.tsx:134-141): read the normalized records,
keep those with `record.id?.toString() !== id` (a record whose `id` is
absent compares `undefined !== id`, hence is kept), write the result back. -/
def deleteLocalRecord (id : String) (nowIso : String)
    (st : List StoredRecord) : List StoredRecord :=
  let existingRecords := getLocalRecords nowIso st
  let filteredRecords := existingRecords.filter fun record =>
    match record.id with
    | none => true
    | some j => j.toStr != id
  filteredRecords.map toStored

/-- A record in the shape the `/api/records` GET response carries (the
client defends against a missing `created_at`). -/
structure WireRecord where
  id : Option JsonId
  names : List String
  date : String
  rtype : RecType
  duration : Duration
  created_at : Option String
deriving DecidableEq

/-- `getRecords` (page.tsx:47-64): with SQLite active, try the fetch; on
success map `created_at: record.created_at || now`; on any failure (network
error or `!response.ok`) fall back to `getLocalRecords`. -/
def getRecords (useSQLite : Bool) (durable : Except String (List WireRecord))
    (nowIso : String) (st : List StoredRecord) : List Record :=
  if useSQLite then
    match durable with
    | .ok records =>
        records.map fun record =>
          { id := record.id
            names := record.names
            date := record.date
            rtype := record.rtype
            duration := record.duration
            created_at := record.created_at.getD nowIso }
    | .error _ => getLocalRecords nowIso st
  else
    getLocalRecords nowIso st

/-- `saveRecord` (page.tsx:66-84): with SQLite active, try the POST and
return the saved record the server echoes; on any failure fall back to
`saveLocalRecord`.  The result pairs the returned record with the (possibly
updated) local collection. -/
def saveRecord (useSQLite : Bool) (durable : Except String Record)
    (record : Draft) (now : Nat) (nowIso : String)
    (st : List StoredRecord) : Record × List StoredRecord :=
  if useSQLite then
    match durable with
    | .ok savedRecord => (savedRecord, st)
    | .error _ => saveLocalRecord record now nowIso st
  else
    saveLocalRecord record now nowIso st

/-- `deleteRecord` (page.tsx:86-100): with SQLite active, try the DELETE;
`if (!response.ok) throw` — so a 404 lands in the catch like a network
failure — and the catch runs `deleteLocalRecord(id.toString())`. -/
def deleteRecord (useSQLite : Bool) (durable : Except String Unit)
    (id : JsonId) (nowIso : String)
    (st : List StoredRecord) : List StoredRecord :=
  if useSQLite then
    match durable with
    | .ok _ => st
    | .error _ => deleteLocalRecord id.toStr nowIso st
  else
    deleteLocalRecord id.toStr nowIso st

end StorageService

/-- A row of the SQLite `records` table: `id` is the INTEGER PRIMARY KEY,
`created_at` has DEFAULT CURRENT_TIMESTAMP so it is never null. -/
structure DbRecord where
  id : Nat
  names : List String
  date : String
  rtype : RecType
  duration : Duration
  created_at : String
deriving DecidableEq

/-- The database: its rows and the next AUTOINCREMENT id. -/
structure DbState where
  rows : List DbRecord
  nextId : Nat
deriving DecidableEq

namespace SQLiteService

/-- `getRecordById` (part_000:101-115): `SELECT * FROM records WHERE id = ?`. -/
def getRecordById (id : Nat) (db : DbState) : Option DbRecord :=
  db.rows.find? fun r => r.id == id

/-- `createRecord` (part_000:79-93): INSERT names/date/type/duration — the
database assigns `id` (AUTOINCREMENT) and `created_at` (CURRENT_TIMESTAMP,
the `dbNow` parameter); then re-read the row by `lastInsertRowid`.  `none`
models the `throw new Error("Failed to create record")` branch. -/
def createRecord (record : Draft) (dbNow : String) (db : DbState) :
    Option (DbRecord × DbState) :=
  let inserted : DbRecord :=
    { id := db.nextId
      names := record.names
      date := record.date
      rtype := record.rtype
      duration := record.duration
      created_at := dbNow }
  let db2 : DbState := { rows := db.rows ++ [inserted], nextId := db.nextId + 1 }
  match getRecordById db.nextId db2 with
  | some newRecord => some (newRecord, db2)
  | none => none

/-- `deleteRecord` (part_000:95-99): `DELETE FROM records WHERE id = ?`;
returns `result.changes > 0` with the new state. -/
def deleteRecord (id : Nat) (db : DbState) : Bool × DbState :=
  (db.rows.any (fun r => r.id == id), { db with rows := db.rows.filter fun r => r.id != id })

end SQLiteService

/-- `Number.parseInt` restricted to the non-negative decimal strings that
occur as record ids; any other string parses to `none` (NaN), which matches
no row. -/
def parseIntNat (s : String) : Option Nat :=
  if s.toList ≠ [] ∧ s.toList.all Char.isDigit then
    some (s.toList.foldl (fun acc c => acc * 10 + (c.toNat - 48)) 0)
  else
    none

/-- `DELETE /api/records?id=...` (route.ts:27-48): 400 without an id
parameter, parse the id (`Number.parseInt`; a non-numeric string matches no
row), 404 when `deleteRecord` reports no change, 200 otherwise.  The `Bool`
is `response.ok`. -/
def routeDELETE (idParam : Option String) (db : DbState) : Bool × DbState :=
  match idParam with
  | none => (false, db)
  | some s =>
    match parseIntNat s with
    | none => (false, db)
    | some n =>
      let (success, db2) := SQLiteService.deleteRecord n db
      (success, db2)

/-- The durable delete attempt as the client sees it: a transport failure or
a non-ok response are both the thrown-error case of the `try`. -/
def durableDeleteOutcome (transportUp : Bool) (idStr : String) (db : DbState) :
    Except String Unit × DbState :=
  if transportUp then
    let (ok, db2) := routeDELETE (some idStr) db
    (if ok then .ok () else .error "Failed to delete record from SQLite", db2)
  else
    (.error "fetch failed", db)

/-- The whole delete path with the durable backend active: client
`deleteRecord` composed with the real route/SQLite behaviour. -/
def deleteViaStore (transportUp : Bool) (id : JsonId) (nowIso : String)
    (db : DbState) (st : List StoredRecord) : DbState × List StoredRecord :=
  let (outcome, db2) := durableDeleteOutcome transportUp id.toStr db
  (db2, StorageService.deleteRecord true outcome id nowIso st)

/-! ## Name parsing and the create guard (page.tsx:273-313)

Strings are handled at the character-list level so that the splitting
behaviour of `input.split(/[\s\n]+/)` is fully analyzable.  JavaScript's
split-on-runs, followed by `.map(trim).filter(length > 0)`, returns exactly
the maximal whitespace-free runs of the input; splitting at every single
whitespace character yields the same final list because the empty pieces
between adjacent separators are removed by the same filter. -/

/-- `.trim()` on a list of characters. -/
def trimChars (l : List Char) : List Char :=
  ((l.dropWhile Char.isWhitespace).reverse.dropWhile Char.isWhitespace).reverse

/-- `parseNames` (page.tsx:273-278): split the input on whitespace, trim
each piece, keep the non-empty ones. -/
def parseNames (input : String) : List String :=
  ((((input.toList).splitOnP Char.isWhitespace).map trimChars).filter
    (fun name => 0 < name.length)).map fun name => String.mk name

/-- The validation in `addRecord` (page.tsx:281-313): an input that is
blank after trimming, or a missing date, is rejected (`alert`, no backend
call); so is an input `parseNames` reduces to zero names.  `some names`
means a create with those names reaches `storageService.saveRecord`. -/
def addRecord (nameInput : String) (hasDate : Bool) : Option (List String) :=
  if trimChars nameInput.toList = [] ∨ hasDate = false then
    none
  else
    let names := parseNames nameInput
    if names.length = 0 then none else some names

/-! ## The records-view filter (page.tsx:352-360) -/

/-- `String.prototype.startsWith`, computed on the character lists. -/
def strStartsWith (s pre : String) : Bool :=
  pre.toList.isPrefixOf s.toList

/-- `hay.includes(needle)` on character lists: `needle` occurs contiguously
in `hay` (the empty needle always occurs). -/
def containsSeq (needle : List Char) : List Char → Bool
  | [] => needle.isEmpty
  | c :: t => needle.isPrefixOf (c :: t) || containsSeq needle t

/-- `searchName` matching: `name.toLowerCase().includes(searchName.toLowerCase())`. -/
def includesLower (name searchName : String) : Bool :=
  containsSeq (searchName.toList.map Char.toLower) (name.toList.map Char.toLower)

/-- The predicate of `filteredRecords` (page.tsx:352-360).  `filterDate` is
an `Option` (a JS `Date | undefined`, already formatted to `yyyy-MM-dd`);
the other four are the raw `useState` strings: type compares against the
sentinel "all", month/year/search treat only the empty string as unset. -/
def recordMatchesFilter (filterDate : Option String)
    (filterType filterMonth filterYear searchName : String)
    (record : Record) : Bool :=
  let matchesDate := match filterDate with
    | none => true
    | some d => record.date == d
  let matchesType := filterType == "all" || typeStr record.rtype == filterType
  let matchesMonth := filterMonth == "" || strStartsWith record.date filterMonth
  let matchesYear := filterYear == "" || strStartsWith record.date filterYear
  let matchesName := searchName == "" ||
    record.names.any fun name => includesLower name searchName
  matchesDate && matchesType && matchesMonth && matchesYear && matchesName

/-- `filteredRecords` (page.tsx:352-360). -/
def filteredRecords (records : List Record) (filterDate : Option String)
    (filterType filterMonth filterYear searchName : String) : List Record :=
  records.filter (recordMatchesFilter filterDate filterType filterMonth filterYear searchName)

/-! ## The statistics aggregation (page.tsx:363-399) -/

/-- One row of the statistics table. -/
structure Statistics where
  name : String
  overtimeCount : Nat
  leaveCount : Nat
  overtimeDays : ℚ
  leaveDays : ℚ
deriving DecidableEq

/-- The zero entry `statsMap.set(name, {...0})` creates on first encounter. -/
def zeroStats (name : String) : Statistics :=
  { name := name, overtimeCount := 0, leaveCount := 0, overtimeDays := 0, leaveDays := 0 }

/-- `const dayValue = record.duration === "full" ? 1 : 0.5`. -/
def dayValue (d : Duration) : ℚ :=
  if d = .full then 1 else 1 / 2

/-- The per-name increment inside the loop: one count and one day-value on
the side selected by the record's type. -/
def bump (rt : RecType) (d : Duration) (s : Statistics) : Statistics :=
  match rt with
  | .overtime =>
      { s with overtimeCount := s.overtimeCount + 1, overtimeDays := s.overtimeDays + dayValue d }
  | .leave =>
      { s with leaveCount := s.leaveCount + 1, leaveDays := s.leaveDays + dayValue d }

/-- The `statsMap` of the source is a JS `Map` (insertion-ordered, unique
keys), embedded as an association list of `Statistics` keyed by `name`.
`mapBump` is one loop iteration: create the zero entry if the name is new
(appended at the end, as `Map.set` does), then increment it. -/
def mapBump (name : String) (rt : RecType) (d : Duration) :
    List Statistics → List Statistics
  | [] => [bump rt d (zeroStats name)]
  | s :: rest =>
      if s.name = name then bump rt d s :: rest
      else s :: mapBump name rt d rest

/-- The inner `record.names.forEach` loop. -/
def processRecord (record : Record) (m : List Statistics) : List Statistics :=
  record.names.foldl (fun acc name => mapBump name record.rtype record.duration acc) m

/-- The statistics filter (page.tsx:366-371): type, month and year each use
the sentinel "all" for "no restriction", month/year match by prefix. -/
def statsRecordMatches (statsFilterType statsFilterMonth statsFilterYear : String)
    (record : Record) : Bool :=
  (statsFilterType == "all" || typeStr record.rtype == statsFilterType)
    && (statsFilterMonth == "all" || strStartsWith record.date statsFilterMonth)
    && (statsFilterYear == "all" || strStartsWith record.date statsFilterYear)

/-- Lexicographic character-list comparison: the order
`a.name.localeCompare(b.name)` sorts by (code-point order on the embedded
character lists). -/
def charListLe : List Char → List Char → Bool
  | [], _ => true
  | _ :: _, [] => false
  | a :: as, b :: bs => if a = b then charListLe as bs else decide (a < b)

/-- The sort comparator of `statistics`: `a.name.localeCompare(b.name) ≤ 0`. -/
def nameLe (a b : Statistics) : Bool :=
  charListLe a.name.toList b.name.toList

/-- `statistics` (page.tsx:363-399): filter, aggregate into the map, then
`Array.from(statsMap.values()).sort((a, b) => a.name.localeCompare(b.name))`
— a comparison sort by name, embedded as insertion sort (the keys are
unique, so any stable comparison sort by name yields this list). -/
def statistics (records : List Record)
    (statsFilterType statsFilterMonth statsFilterYear : String) : List Statistics :=
  let statsFilteredRecords :=
    records.filter (statsRecordMatches statsFilterType statsFilterMonth statsFilterYear)
  let statsMap := statsFilteredRecords.foldl (fun m record => processRecord record m) []
  statsMap.insertionSort fun a b => nameLe a b = true

/-! ## Reference aggregation (the spec's words, for claim C4)

Modelled from the spec: "for every record passing the filter, for every
name in that record's `names`, increment that name's count for the record's
`type` by 1 and its day-total by the record's duration's day-equivalent". -/

/-- Every name occurrence in a record collection. -/
def allNameOccs (rs : List Record) : List String :=
  (rs.map Record.names).flatten

/-- Reference count: the number of name occurrences of `n` in records of
type `rt`. -/
def refCount (n : String) (rt : RecType) (rs : List Record) : Nat :=
  (rs.map fun r => if r.rtype = rt then r.names.count n else 0).sum

/-- Reference day-total: each occurrence weighs the record's day-value. -/
def refDays (n : String) (rt : RecType) (rs : List Record) : ℚ :=
  (rs.map fun r => if r.rtype = rt then (r.names.count n : ℚ) * dayValue r.duration else 0).sum

/-- The reference statistics row for one name. -/
def refStats (n : String) (rs : List Record) : Statistics :=
  { name := n
    overtimeCount := refCount n .overtime rs
    leaveCount := refCount n .leave rs
    overtimeDays := refDays n .overtime rs
    leaveDays := refDays n .leave rs }

/-- Lookup in the association list (`statsMap.get`). -/
def findStats (n : String) (m : List Statistics) : Option Statistics :=
  m.find? fun s => s.name == n

/-- The effect on one name's entry of `k` bumps with the same type and
duration, starting from an absent (`none`) or present entry. -/
def applyBumps (rt : RecType) (d : Duration) (k : Nat) (n : String) :
    Option Statistics → Option Statistics
  | none => if k = 0 then none else some ((bump rt d)^[k] (zeroStats n))
  | some s => some ((bump rt d)^[k] s)

/-- The effect of a record list on one name's entry. -/
def recContrib (n : String) (rs : List Record) (o : Option Statistics) : Option Statistics :=
  rs.foldl (fun o r => applyBumps r.rtype r.duration (r.names.count n) n o) o



/-! ## Helper lemmas -/

/-- Reading back a collection written from normalized records returns those
records unchanged: every field was materialized at write time. -/
theorem getLocalRecords_map_toStored (nowIso : String) (l : List Record) :
    StorageService.getLocalRecords nowIso (l.map StorageService.toStored) = l := by
  induction l with
  | nil => rfl
  | cons a t ih =>
    have step : StorageService.getLocalRecords nowIso
        (List.map StorageService.toStored (a :: t)) =
        a :: StorageService.getLocalRecords nowIso (List.map StorageService.toStored t) := rfl
    rw [step, ih]

/-! ## Claim C3 — durable failure falls back to the ephemeral backend -/

/-- C3: for each of the three Store operations run with the durable backend
active, a failed durable attempt (any `.error`) makes the Store execute the
same logical operation on the ephemeral backend and return its result; the
ephemeral operations are total functions, so no error propagates. -/
theorem c3_durable_failure_falls_back :
    (∀ (e : String) (nowIso : String) (st : List StoredRecord),
      StorageService.getRecords true (.error e) nowIso st =
        StorageService.getLocalRecords nowIso st)
    ∧ (∀ (e : String) (record : Draft) (now : Nat) (nowIso : String) (st : List StoredRecord),
      StorageService.saveRecord true (.error e) record now nowIso st =
        StorageService.saveLocalRecord record now nowIso st)
    ∧ (∀ (e : String) (id : JsonId) (nowIso : String) (st : List StoredRecord),
      StorageService.deleteRecord true (.error e) id nowIso st =
        StorageService.deleteLocalRecord id.toStr nowIso st) :=
  ⟨fun _ _ _ => rfl, fun _ _ _ _ _ => rfl, fun _ _ _ _ => rfl⟩

/-! ## Claim C2 — ephemeral create ids are raw `Date.now()` timestamps -/

/-- C2 (failing input): two creates in the same millisecond
(`Date.now() = 1700000000000` both times) produce records with the *same*
id, and the stored collection ends up with two records carrying that id —
the uniqueness invariant the spec demands is violated. -/
theorem c2_same_millisecond_creates_collide :
    (StorageService.saveLocalRecord
        { names := ["Alice"], date := "2024-01-05", rtype := .overtime,
          duration := .full, created_at := some "t1" } 1700000000000 "t1" []).1.id =
      (StorageService.saveLocalRecord
        { names := ["Bob"], date := "2024-01-06", rtype := .leave,
          duration := .morning, created_at := some "t2" } 1700000000000 "t2"
        (StorageService.saveLocalRecord
          { names := ["Alice"], date := "2024-01-05", rtype := .overtime,
            duration := .full, created_at := some "t1" } 1700000000000 "t1" []).2).1.id
    ∧ ((StorageService.getLocalRecords "t3"
        (StorageService.saveLocalRecord
          { names := ["Bob"], date := "2024-01-06", rtype := .leave,
            duration := .morning, created_at := some "t2" } 1700000000000 "t2"
          (StorageService.saveLocalRecord
            { names := ["Alice"], date := "2024-01-05", rtype := .overtime,
              duration := .full, created_at := some "t1" } 1700000000000 "t1" []).2).2).countP
        fun r => r.id == some (.num 1700000000000)) = 2 := by
  decide

/-! ## Claim C5 — the records-view filter and the "all" sentinel -/

/-- C5 (failing input): in the records view only the *empty* year/month
string is treated as unset.  Selecting the UI's "all" choice stores the
string "all", and `record.date.startsWith("all")` then rejects every
record — here a record that every other predicate accepts is excluded with
`filterYear = "all"`, and likewise with `filterMonth = "all"`, while the
fully-unset filter accepts it. -/
theorem c5_all_sentinel_excludes_every_record :
    (recordMatchesFilter none "all" "" "all" ""
      { id := some (.num 1), names := ["Alice"], date := "2024-01-05",
        rtype := .overtime, duration := .full, created_at := "t" } = false)
    ∧ (recordMatchesFilter none "all" "all" "" ""
      { id := some (.num 1), names := ["Alice"], date := "2024-01-05",
        rtype := .overtime, duration := .full, created_at := "t" } = false)
    ∧ (recordMatchesFilter none "all" "" "" ""
      { id := some (.num 1), names := ["Alice"], date := "2024-01-05",
        rtype := .overtime, duration := .full, created_at := "t" } = true) := by
  decide

/-! ## Claim C9 — who assigns `id` and `created_at` -/

/-- C9 (counterexample): on the ephemeral backend `created_at` is *not*
assigned at persistence time when the caller's draft carries one:
`created_at: record.created_at || new Date().toISOString()` prefers the
caller's value.  (The UI's `addRecord` always sends one.) -/
theorem c9_counterexample_created_at_from_caller :
    (StorageService.saveLocalRecord
        { names := ["Alice"], date := "2024-01-05", rtype := .overtime,
          duration := .full, created_at := some "2000-01-01T00:00:00.000Z" }
        1700000000000 "2024-06-01T12:00:00.000Z" []).1.created_at ≠
      "2024-06-01T12:00:00.000Z" := by
  decide

/-- C9 (amended): `id` is always backend-assigned (the ephemeral backend
uses `Date.now()`, the durable backend the AUTOINCREMENT key), and the
durable backend also assigns `created_at` at persistence time ignoring the
draft; but the ephemeral backend persists the caller's `created_at`
verbatim whenever the draft carries a non-empty one (as the UI's
`addRecord` always does), stamping the persistence time only when it is
absent or the empty string (JavaScript `||` falsiness). -/
theorem c9_amended_id_and_created_at_assignment :
    (∀ (record : Draft) (now : Nat) (nowIso : String) (st : List StoredRecord),
      (StorageService.saveLocalRecord record now nowIso st).1.id = some (.num now))
    ∧ (∀ (record : Draft) (now : Nat) (nowIso : String) (st : List StoredRecord)
        (c : String), record.created_at = some c → c ≠ "" →
      (StorageService.saveLocalRecord record now nowIso st).1.created_at = c)
    ∧ (∀ (record : Draft) (now : Nat) (nowIso : String) (st : List StoredRecord),
      record.created_at = none ∨ record.created_at = some "" →
      (StorageService.saveLocalRecord record now nowIso st).1.created_at = nowIso)
    ∧ (∀ (record : Draft) (dbNow : String) (db : DbState),
      (∀ r ∈ db.rows, r.id ≠ db.nextId) →
        ∃ rec db2, SQLiteService.createRecord record dbNow db = some (rec, db2) ∧
          rec.id = db.nextId ∧ rec.created_at = dbNow) := by
  have hca : ∀ (record : Draft) (now : Nat) (nowIso : String) (st : List StoredRecord),
      (StorageService.saveLocalRecord record now nowIso st).1.created_at =
        orElseStr record.created_at nowIso := fun _ _ _ _ => rfl
  refine ⟨fun _ _ _ _ => rfl, ?_, ?_, fun record dbNow db h => ?_⟩
  · intro record now nowIso st c hc hne
    rw [hca, hc]
    simp [orElseStr, hne]
  · intro record now nowIso st hc
    rcases hc with hc | hc <;> rw [hca, hc] <;> simp [orElseStr]
  have hrows : db.rows.find? (fun r => r.id == db.nextId) = none := by
    simp only [List.find?_eq_none, beq_iff_eq]
    exact fun r hr => h r hr
  refine ⟨⟨db.nextId, record.names, record.date, record.rtype, record.duration, dbNow⟩,
    ⟨db.rows ++ [⟨db.nextId, record.names, record.date, record.rtype, record.duration, dbNow⟩],
      db.nextId + 1⟩, ?_, rfl, rfl⟩
  simp [SQLiteService.createRecord, SQLiteService.getRecordById, hrows]

/-! ## Claim C1 — a durable 404 on delete -/

/-- C1 (counterexample): the database holds no record with id 5, so the
DELETE route answers 404 (`response.ok` false); the client throws on
`!response.ok` and the catch block runs the ephemeral delete, which removes
the locally stored record with id 5 — the ephemeral collection is *not*
unchanged, refuting the claim at this input. -/
theorem c1_counterexample_404_deletes_ephemeral :
    (deleteViaStore true (.num 5) "t" { rows := [], nextId := 1 }
      [{ id := some (.num 5), names := ["Alice"], date := "2024-01-05",
         rtype := .overtime, duration := some .full, created_at := some "t" }]).2 ≠
    [{ id := some (.num 5), names := ["Alice"], date := "2024-01-05",
       rtype := .overtime, duration := some .full, created_at := some "t" }] := by
  decide

/-- C1 (amended): when the transport is up and the durable backend answers
a delete with "not found" (`response.ok` false), the Store treats it like
any other failure: it falls back and executes the same delete against the
ephemeral backend (so the ephemeral collection is unchanged only when no
stored record's id renders to the same string). -/
theorem c1_amended_404_falls_back (id : JsonId) (db : DbState) (nowIso : String)
    (st : List StoredRecord)
    (h : (routeDELETE (some id.toStr) db).1 = false) :
    (deleteViaStore true id nowIso db st).2 =
      StorageService.deleteLocalRecord id.toStr nowIso st := by
  unfold deleteViaStore durableDeleteOutcome
  rcases hr : routeDELETE (some id.toStr) db with ⟨ok, db2⟩
  rw [hr] at h
  simp only at h
  subst h
  simp [StorageService.deleteRecord]

/-- Witness for `c1_amended_404_falls_back` at the concrete 404 input. -/
theorem c1_amended_404_falls_back_witness :
    (routeDELETE (some (JsonId.num 5).toStr) { rows := [], nextId := 1 }).1 = false ∧
    (deleteViaStore true (.num 5) "t" { rows := [], nextId := 1 }
      [{ id := some (.num 5), names := ["Alice"], date := "2024-01-05",
         rtype := .overtime, duration := some .full, created_at := some "t" }]).2 =
      StorageService.deleteLocalRecord (JsonId.num 5).toStr "t"
        [{ id := some (.num 5), names := ["Alice"], date := "2024-01-05",
           rtype := .overtime, duration := some .full, created_at := some "t" }] :=
  ⟨by decide, c1_amended_404_falls_back (.num 5) { rows := [], nextId := 1 } "t"
    [{ id := some (.num 5), names := ["Alice"], date := "2024-01-05",
       rtype := .overtime, duration := some .full, created_at := some "t" }] (by decide)⟩

/-! ## Claim C8 — name parsing -/

/-- Characters of any piece produced by `splitOnP` come from the input and
never satisfy the splitting predicate. -/
theorem mem_splitOnP_mem {α : Type} {p : α → Bool} :
    ∀ (l : List α) (t : List α), t ∈ l.splitOnP p → ∀ c ∈ t, c ∈ l ∧ ¬ p c := by
  intro l
  induction l with
  | nil =>
    intro t ht c hc
    rw [List.splitOnP_nil] at ht
    rcases List.mem_singleton.mp ht with rfl
    cases hc
  | cons x xs ih =>
    intro t ht c hc
    rw [List.splitOnP_cons] at ht
    by_cases hp : p x
    · rw [if_pos hp] at ht
      rcases List.mem_cons.mp ht with rfl | ht'
      · cases hc
      · rcases ih t ht' c hc with ⟨h1, h2⟩
        exact ⟨List.mem_cons_of_mem _ h1, h2⟩
    · rw [if_neg hp] at ht
      rcases List.exists_cons_of_ne_nil (List.splitOnP_ne_nil p xs) with ⟨h0, rest, hs⟩
      rw [hs] at ht
      simp only [List.modifyHead] at ht
      rcases List.mem_cons.mp ht with rfl | ht'
      · rcases List.mem_cons.mp hc with rfl | hc'
        · exact ⟨List.mem_cons_self _ _, hp⟩
        · rcases ih h0 (hs ▸ List.mem_cons_self _ _) c hc' with ⟨h1, h2⟩
          exact ⟨List.mem_cons_of_mem _ h1, h2⟩
      · rcases ih t (hs ▸ List.mem_cons_of_mem _ ht') c hc with ⟨h1, h2⟩
        exact ⟨List.mem_cons_of_mem _ h1, h2⟩

/-- Trimming only removes characters. -/
theorem trimChars_subset (l : List Char) : ∀ c ∈ trimChars l, c ∈ l := by
  intro c hc
  unfold trimChars at hc
  rw [List.mem_reverse] at hc
  have h1 := (List.dropWhile_sublist (l := (l.dropWhile Char.isWhitespace).reverse)
    (p := Char.isWhitespace)).subset hc
  rw [List.mem_reverse] at h1
  exact (List.dropWhile_sublist (l := l) (p := Char.isWhitespace)).subset h1

/-- A fully-whitespace character list trims to nothing. -/
theorem trimChars_eq_nil_of_all_ws (l : List Char) (h : ∀ c ∈ l, c.isWhitespace) :
    trimChars l = [] := by
  have h1 : l.dropWhile Char.isWhitespace = [] := List.dropWhile_eq_nil_iff.mpr h
  unfold trimChars
  rw [h1]
  rfl

/-- C8: `parseNames` splits on runs of whitespace into trimmed, non-empty,
whitespace-free tokens — on `"Alice  Bob\nCarol"` it yields exactly
`["Alice", "Bob", "Carol"]` — a whitespace-only input yields zero names,
and such an input (or one yielding zero names) is rejected by `addRecord`
before any create reaches a backend. -/
theorem c8_parse_names_spec :
    parseNames "Alice  Bob\nCarol" = ["Alice", "Bob", "Carol"]
    ∧ (∀ s : String, (∀ c ∈ s.toList, c.isWhitespace) → parseNames s = [])
    ∧ (∀ s : String, ∀ t ∈ parseNames s, t ≠ "" ∧ ∀ c ∈ t.toList, ¬ c.isWhitespace)
    ∧ (∀ (s : String) (hasDate : Bool), (∀ c ∈ s.toList, c.isWhitespace) →
        addRecord s hasDate = none) := by
  refine ⟨by decide, ?_, ?_, ?_⟩
  · intro s h
    unfold parseNames
    have hfil : (((s.toList.splitOnP Char.isWhitespace).map trimChars).filter
        fun name => 0 < name.length) = [] := by
      rw [List.filter_eq_nil_iff]
      intro t' ht'
      rcases List.mem_map.mp ht' with ⟨t, ht, rfl⟩
      have hnil : t = [] := by
        rw [List.eq_nil_iff_forall_not_mem]
        intro c hc
        rcases mem_splitOnP_mem s.toList t ht c hc with ⟨h1, h2⟩
        exact h2 (h c h1)
      subst hnil
      decide
    rw [hfil]
    rfl
  · intro s t ht
    rcases List.mem_map.mp ht with ⟨tc, htc, rfl⟩
    rcases List.mem_filter.mp htc with ⟨htc', hlen⟩
    rcases List.mem_map.mp htc' with ⟨tok, htok, rfl⟩
    constructor
    · intro he
      have : trimChars tok = [] := congrArg String.toList he
      rw [this] at hlen
      exact absurd hlen (by decide)
    · intro c hc
      have hctok : c ∈ tok := trimChars_subset tok c hc
      exact (mem_splitOnP_mem s.toList tok htok c hctok).2
  · intro s hasDate h
    have : trimChars s.toList = [] := trimChars_eq_nil_of_all_ws s.toList h
    unfold addRecord
    rw [if_pos (Or.inl this)]

/-! ## Claims C6, C7, C10 — ephemeral create/delete against list -/

/-- What a later read sees after an ephemeral delete: the normalized
collection filtered by the id-string comparison (all fields were
materialized at delete time, so the read-back timestamp is irrelevant). -/
theorem getLocalRecords_deleteLocalRecord (idStr nowIso nowIso2 : String)
    (st : List StoredRecord) :
    StorageService.getLocalRecords nowIso2 (StorageService.deleteLocalRecord idStr nowIso st) =
      (StorageService.getLocalRecords nowIso st).filter fun record =>
        match record.id with
        | none => true
        | some j => j.toStr != idStr :=
  getLocalRecords_map_toStored nowIso2 _

/-- What a later read sees after an ephemeral create: the new record in
front of the previously visible collection. -/
theorem getLocalRecords_saveLocalRecord (record : Draft) (now : Nat)
    (nowIso nowIso2 : String) (st : List StoredRecord) :
    StorageService.getLocalRecords nowIso2 (StorageService.saveLocalRecord record now nowIso st).2 =
      (StorageService.saveLocalRecord record now nowIso st).1 ::
        StorageService.getLocalRecords nowIso st :=
  getLocalRecords_map_toStored nowIso2 _

/-- C7: after an ephemeral `delete(id)`, a `list` returns no record with
that id (no surviving record's id renders to the delete argument's string);
and when no listed record has such an id, the delete is a no-op on the
visible collection (and, being a total function, raises nothing). -/
theorem c7_delete_then_list_no_id :
    (∀ (d : Except String Unit) (id : JsonId) (nowIso nowIso2 : String)
      (st : List StoredRecord),
      ∀ r ∈ StorageService.getLocalRecords nowIso2
          (StorageService.deleteRecord false d id nowIso st),
        ∀ j, r.id = some j → j.toStr ≠ id.toStr)
    ∧ (∀ (d : Except String Unit) (id : JsonId) (nowIso nowIso2 : String)
      (st : List StoredRecord),
      (∀ r ∈ StorageService.getLocalRecords nowIso st, ∀ j, r.id = some j → j.toStr ≠ id.toStr) →
        StorageService.getLocalRecords nowIso2
          (StorageService.deleteRecord false d id nowIso st) =
          StorageService.getLocalRecords nowIso st) := by
  constructor
  · intro d id nowIso nowIso2 st r hr j hj
    rw [show StorageService.deleteRecord false d id nowIso st =
        StorageService.deleteLocalRecord id.toStr nowIso st from rfl,
      getLocalRecords_deleteLocalRecord] at hr
    have hp := (List.mem_filter.mp hr).2
    rw [hj] at hp
    simpa using hp
  · intro d id nowIso nowIso2 st h
    rw [show StorageService.deleteRecord false d id nowIso st =
        StorageService.deleteLocalRecord id.toStr nowIso st from rfl,
      getLocalRecords_deleteLocalRecord]
    apply List.filter_eq_self.mpr
    intro r hr
    cases hid : r.id with
    | none => simp
    | some j =>
      have := h r hr j hid
      simpa using this

/-- C10: an ephemeral delete removes exactly the stored records whose id,
rendered to a string, equals the string of the given id (numeric and string
ids denoting the same value both match), and a record with no id field
survives every delete.  The closed conjunct shows `delete("5")` removing
both a numeric-id-5 and a string-id-"5" record while keeping the id-less
one. -/
theorem c10_delete_compares_id_strings :
    (∀ (d : Except String Unit) (id : JsonId) (nowIso nowIso2 : String)
      (st : List StoredRecord) (r : Record),
      r ∈ StorageService.getLocalRecords nowIso2
          (StorageService.deleteRecord false d id nowIso st) ↔
        (r ∈ StorageService.getLocalRecords nowIso st ∧
          ∀ j, r.id = some j → j.toStr ≠ id.toStr))
    ∧ StorageService.getLocalRecords "t2"
        (StorageService.deleteRecord false (.ok ()) (.str "5") "t"
          [{ id := some (.num 5), names := ["A"], date := "2024-01-05",
             rtype := .overtime, duration := some .full, created_at := some "t" },
           { id := some (.str "5"), names := ["B"], date := "2024-01-06",
             rtype := .leave, duration := some .full, created_at := some "t" },
           { id := none, names := ["C"], date := "2024-01-07",
             rtype := .overtime, duration := some .full, created_at := some "t" }]) =
        [{ id := none, names := ["C"], date := "2024-01-07",
           rtype := .overtime, duration := .full, created_at := "t" }] := by
  constructor
  · intro d id nowIso nowIso2 st r
    rw [show StorageService.deleteRecord false d id nowIso st =
        StorageService.deleteLocalRecord id.toStr nowIso st from rfl,
      getLocalRecords_deleteLocalRecord, List.mem_filter]
    constructor
    · rintro ⟨hmem, hp⟩
      refine ⟨hmem, fun j hj => ?_⟩
      rw [hj] at hp
      simpa using hp
    · rintro ⟨hmem, hp⟩
      refine ⟨hmem, ?_⟩
      cases hid : r.id with
      | none => simp
      | some j =>
        have := hp j hid
        simpa using this
  · decide

/-- C6 (counterexample): the claim quantifies over *every* ephemeral state;
in a state that already holds a record with the id the create is about to
assign (reachable by the same-millisecond collision of C2) and the same
fields, create-then-list yields *two* records matching the draft's fields
and carrying the freshly assigned id. -/
theorem c6_counterexample_preexisting_id :
    ((StorageService.getLocalRecords "t"
        (StorageService.saveLocalRecord
          { names := ["Alice"], date := "2024-01-05", rtype := .overtime,
            duration := .full, created_at := some "t" } 1700000000000 "t"
          [{ id := some (.num 1700000000000), names := ["Alice"], date := "2024-01-05",
             rtype := .overtime, duration := some .full, created_at := some "t" }]).2).countP
      fun r => decide (r.names = ["Alice"] ∧ r.date = "2024-01-05" ∧
        r.rtype = .overtime ∧ r.duration = .full ∧
        r.id = some (.num 1700000000000))) = 2 := by
  decide

/-- C6 (amended): provided no already-listed record carries the id the
create will assign (true whenever no earlier create happened in the same
millisecond), create followed by list yields the previous collection with
the new record prepended — most-recently-created first — the new record
carries the draft's fields and the freshly assigned id, and exactly one
listed record matches the draft's fields with that id. -/
theorem c6_amended_create_then_list (record : Draft) (now : Nat)
    (nowIso nowIso2 : String) (st : List StoredRecord)
    (h : ∀ r ∈ StorageService.getLocalRecords nowIso st, r.id ≠ some (.num now)) :
    StorageService.getLocalRecords nowIso2 (StorageService.saveLocalRecord record now nowIso st).2 =
      (StorageService.saveLocalRecord record now nowIso st).1 ::
        StorageService.getLocalRecords nowIso st
    ∧ (StorageService.saveLocalRecord record now nowIso st).1.names = record.names
    ∧ (StorageService.saveLocalRecord record now nowIso st).1.date = record.date
    ∧ (StorageService.saveLocalRecord record now nowIso st).1.rtype = record.rtype
    ∧ (StorageService.saveLocalRecord record now nowIso st).1.duration = record.duration
    ∧ (StorageService.saveLocalRecord record now nowIso st).1.id = some (.num now)
    ∧ ((StorageService.getLocalRecords nowIso2
        (StorageService.saveLocalRecord record now nowIso st).2).countP
      fun r => decide (r.names = record.names ∧ r.date = record.date ∧
        r.rtype = record.rtype ∧ r.duration = record.duration ∧
        r.id = some (.num now))) = 1 := by
  refine ⟨getLocalRecords_saveLocalRecord record now nowIso nowIso2 st,
    rfl, rfl, rfl, rfl, rfl, ?_⟩
  rw [getLocalRecords_saveLocalRecord record now nowIso nowIso2 st, List.countP_cons]
  have hbase : ((StorageService.getLocalRecords nowIso st).countP
      fun r => decide (r.names = record.names ∧ r.date = record.date ∧
        r.rtype = record.rtype ∧ r.duration = record.duration ∧
        r.id = some (.num now))) = 0 := by
    rw [List.countP_eq_zero]
    intro r hr
    simp only [decide_eq_true_eq, not_and]
    intro _ _ _ _
    exact h r hr
  rw [hbase]
  simp only [Nat.zero_add, decide_eq_true_eq]
  rw [if_pos ⟨rfl, rfl, rfl, rfl, rfl⟩]

/-- Witness for `c6_amended_create_then_list` at a concrete state whose
single stored record has a different id. -/
theorem c6_amended_create_then_list_witness :
    (∀ r ∈ StorageService.getLocalRecords "t1"
        [{ id := some (.num 7), names := ["Bob"], date := "2023-01-01",
           rtype := .leave, duration := none, created_at := none }],
      r.id ≠ some (.num 42))
    ∧ ((StorageService.getLocalRecords "t2"
        (StorageService.saveLocalRecord
          { names := ["Alice"], date := "2024-01-05", rtype := .overtime,
            duration := .full, created_at := some "tc" } 42 "t1"
          [{ id := some (.num 7), names := ["Bob"], date := "2023-01-01",
             rtype := .leave, duration := none, created_at := none }]).2).countP
      fun r => decide (r.names = ["Alice"] ∧ r.date = "2024-01-05" ∧
        r.rtype = .overtime ∧ r.duration = .full ∧ r.id = some (.num 42))) = 1 :=
  ⟨by decide,
    (c6_amended_create_then_list
      { names := ["Alice"], date := "2024-01-05", rtype := .overtime,
        duration := .full, created_at := some "tc" } 42 "t1" "t2"
      [{ id := some (.num 7), names := ["Bob"], date := "2023-01-01",
         rtype := .leave, duration := none, created_at := none }]
      (by decide)).2.2.2.2.2.2⟩

/-! ## Claim C4 — statistics aggregation lemmas -/

theorem bump_name (rt : RecType) (d : Duration) (s : Statistics) :
    (bump rt d s).name = s.name := by
  cases rt <;> rfl

theorem iterate_bump_name (rt : RecType) (d : Duration) (k : Nat) (s : Statistics) :
    ((bump rt d)^[k] s).name = s.name := by
  induction k generalizing s with
  | zero => rfl
  | succ k ih => rw [Function.iterate_succ_apply, ih, bump_name]

theorem applyBumps_zero (rt : RecType) (d : Duration) (n : String) (o : Option Statistics) :
    applyBumps rt d 0 n o = o := by
  cases o <;> simp [applyBumps]

theorem find_mapBump_self (n : String) (rt : RecType) (d : Duration) :
    ∀ m : List Statistics,
      findStats n (mapBump n rt d m) = some (bump rt d ((findStats n m).getD (zeroStats n))) := by
  intro m
  induction m with
  | nil => simp [mapBump, findStats, List.find?, bump_name, zeroStats]
  | cons s rest ih =>
    by_cases h : s.name = n
    · simp [mapBump, if_pos h, findStats, List.find?, bump_name, h]
    · simp only [mapBump, if_neg h]
      rw [findStats, List.find?_cons_of_neg, findStats, List.find?_cons_of_neg]
      · exact ih
      · simp [h]
      · simp [bump_name, h]

theorem find_mapBump_ne {n n' : String} (h : n' ≠ n) (rt : RecType) (d : Duration) :
    ∀ m : List Statistics, findStats n' (mapBump n rt d m) = findStats n' m := by
  intro m
  induction m with
  | nil =>
    have hne : (n == n') = false := by
      simp [Ne.symm h]
    simp [mapBump, findStats, List.find?, bump_name, zeroStats, hne]
  | cons s rest ih =>
    by_cases hs : s.name = n
    · have hne : ¬ n = n' := Ne.symm h
      simp only [mapBump, if_pos hs]
      rw [findStats, List.find?_cons_of_neg, findStats, List.find?_cons_of_neg]
      · simp [hs, hne]
      · simp [bump_name, hs, hne]
    · simp only [mapBump, if_neg hs]
      by_cases hs' : s.name = n'
      · rw [findStats, List.find?_cons_of_pos, findStats, List.find?_cons_of_pos] <;>
          simp [hs']
      · rw [findStats, List.find?_cons_of_neg, findStats, List.find?_cons_of_neg]
        · exact ih
        · simp [hs']
        · simp [hs']

theorem find_foldl_mapBump (rt : RecType) (d : Duration) :
    ∀ (ns : List String) (m : List Statistics) (n : String),
      findStats n (ns.foldl (fun acc nm => mapBump nm rt d acc) m) =
        applyBumps rt d (ns.count n) n (findStats n m) := by
  intro ns
  induction ns with
  | nil =>
    intro m n
    simp [applyBumps_zero]
  | cons a tl ih =>
    intro m n
    rw [List.foldl_cons, ih]
    by_cases h : a = n
    · subst h
      rw [find_mapBump_self, List.count_cons_self]
      cases ho : findStats a m with
      | none => simp [applyBumps, Function.iterate_succ_apply]
      | some s => simp [applyBumps, Function.iterate_succ_apply]
    · rw [find_mapBump_ne (Ne.symm h), List.count_cons_of_ne (Ne.symm h)]

theorem find_foldl_processRecord :
    ∀ (rs : List Record) (m : List Statistics) (n : String),
      findStats n (rs.foldl (fun m r => processRecord r m) m) =
        recContrib n rs (findStats n m) := by
  intro rs
  induction rs with
  | nil => intro m n; rfl
  | cons r tl ih =>
    intro m n
    rw [List.foldl_cons, ih]
    have hp : findStats n (processRecord r m) =
        applyBumps r.rtype r.duration (r.names.count n) n (findStats n m) := by
      rw [processRecord, find_foldl_mapBump]
    rw [hp]
    rfl

theorem refCount_cons (n : String) (rt : RecType) (r : Record) (tl : List Record) :
    refCount n rt (r :: tl) =
      (if r.rtype = rt then r.names.count n else 0) + refCount n rt tl := by
  simp [refCount]

theorem refDays_cons (n : String) (rt : RecType) (r : Record) (tl : List Record) :
    refDays n rt (r :: tl) =
      (if r.rtype = rt then (r.names.count n : ℚ) * dayValue r.duration else 0) +
        refDays n rt tl := by
  simp [refDays]

theorem iterate_bump_eq (rt : RecType) (d : Duration) :
    ∀ (k : Nat) (s : Statistics),
      (bump rt d)^[k] s =
        { name := s.name
          overtimeCount := s.overtimeCount + (if rt = .overtime then k else 0)
          leaveCount := s.leaveCount + (if rt = .leave then k else 0)
          overtimeDays := s.overtimeDays + (if rt = .overtime then (k : ℚ) * dayValue d else 0)
          leaveDays := s.leaveDays + (if rt = .leave then (k : ℚ) * dayValue d else 0) } := by
  intro k
  induction k with
  | zero => intro s; cases s; cases rt <;> simp
  | succ k ih =>
    intro s
    rw [Function.iterate_succ_apply, ih]
    cases s with
    | mk nm oc lc od ld =>
      cases rt <;>
        simp [bump, Statistics.mk.injEq, Nat.cast_succ] <;>
        constructor <;>
        first
          | omega
          | ring

theorem recContrib_some :
    ∀ (rs : List Record) (n : String) (s : Statistics),
      recContrib n rs (some s) = some
        { name := s.name
          overtimeCount := s.overtimeCount + refCount n .overtime rs
          leaveCount := s.leaveCount + refCount n .leave rs
          overtimeDays := s.overtimeDays + refDays n .overtime rs
          leaveDays := s.leaveDays + refDays n .leave rs } := by
  intro rs
  induction rs with
  | nil =>
    intro n s
    cases s
    simp [recContrib, refCount, refDays]
  | cons r tl ih =>
    intro n s
    have h1 : recContrib n (r :: tl) (some s) =
        recContrib n tl (some ((bump r.rtype r.duration)^[r.names.count n] s)) := rfl
    rw [h1, ih, iterate_bump_eq, refCount_cons, refCount_cons, refDays_cons, refDays_cons]
    simp [add_assoc]

theorem recContrib_none :
    ∀ (rs : List Record) (n : String),
      recContrib n rs none =
        if n ∈ allNameOccs rs then some (refStats n rs) else none := by
  intro rs
  induction rs with
  | nil => intro n; simp [recContrib, allNameOccs]
  | cons r tl ih =>
    intro n
    have h1 : recContrib n (r :: tl) none =
        recContrib n tl (applyBumps r.rtype r.duration (r.names.count n) n none) := rfl
    by_cases hk : r.names.count n = 0
    · have hmem : n ∉ r.names := by
        rw [← List.count_eq_zero]
        exact hk
      have ha : applyBumps r.rtype r.duration (r.names.count n) n none = none := by
        simp [applyBumps, hk]
      rw [h1, ha, ih]
      by_cases hm : n ∈ allNameOccs tl
      · rw [if_pos hm, if_pos (show n ∈ allNameOccs (r :: tl) by
          simp only [allNameOccs, List.map_cons, List.flatten_cons, List.mem_append]
          exact Or.inr hm)]
        simp [refStats, refCount_cons, refDays_cons, hk]
      · rw [if_neg hm, if_neg (show n ∉ allNameOccs (r :: tl) by
          simp only [allNameOccs, List.map_cons, List.flatten_cons, List.mem_append]
          rintro (h | h)
          · exact hmem h
          · exact hm h)]
    · have hmem : n ∈ r.names := by
        rw [← List.count_pos_iff]
        exact Nat.pos_of_ne_zero hk
      have ha : applyBumps r.rtype r.duration (r.names.count n) n none =
          some ((bump r.rtype r.duration)^[r.names.count n] (zeroStats n)) := by
        simp [applyBumps, hk]
      rw [h1, ha, recContrib_some, iterate_bump_eq,
        if_pos (show n ∈ allNameOccs (r :: tl) by
          simp only [allNameOccs, List.map_cons, List.flatten_cons, List.mem_append]
          exact Or.inl hmem)]
      simp [refStats, refCount_cons, refDays_cons, zeroStats]

theorem names_mapBump (n : String) (rt : RecType) (d : Duration) :
    ∀ m : List Statistics,
      (mapBump n rt d m).map Statistics.name =
        if n ∈ m.map Statistics.name then m.map Statistics.name
        else m.map Statistics.name ++ [n] := by
  intro m
  induction m with
  | nil => simp [mapBump, bump_name, zeroStats]
  | cons s rest ih =>
    by_cases h : s.name = n
    · simp [mapBump, if_pos h, bump_name, h]
    · simp only [mapBump, if_neg h, List.map_cons, ih]
      by_cases hm : n ∈ rest.map Statistics.name
      · rw [if_pos hm, if_pos (List.mem_cons.mpr (Or.inr hm))]
      · rw [if_neg hm, if_neg (by
          simp only [List.mem_cons]
          rintro (he | he)
          · exact h he.symm
          · exact hm he)]
        rfl

theorem nodup_mapBump (n : String) (rt : RecType) (d : Duration) (m : List Statistics)
    (h : (m.map Statistics.name).Nodup) :
    ((mapBump n rt d m).map Statistics.name).Nodup := by
  rw [names_mapBump]
  by_cases hm : n ∈ m.map Statistics.name
  · rwa [if_pos hm]
  · rw [if_neg hm]
    simp [List.nodup_append, h, hm]

theorem nodup_foldl_mapBump (rt : RecType) (d : Duration) :
    ∀ (ns : List String) (m : List Statistics),
      (m.map Statistics.name).Nodup →
        ((ns.foldl (fun acc nm => mapBump nm rt d acc) m).map Statistics.name).Nodup := by
  intro ns
  induction ns with
  | nil => intro m h; exact h
  | cons a tl ih =>
    intro m h
    rw [List.foldl_cons]
    exact ih _ (nodup_mapBump a rt d m h)

theorem nodup_foldl_processRecord :
    ∀ (rs : List Record) (m : List Statistics),
      (m.map Statistics.name).Nodup →
        ((rs.foldl (fun m r => processRecord r m) m).map Statistics.name).Nodup := by
  intro rs
  induction rs with
  | nil => intro m h; exact h
  | cons r tl ih =>
    intro m h
    rw [List.foldl_cons]
    exact ih _ (nodup_foldl_mapBump r.rtype r.duration r.names m h)

theorem findStats_of_mem_nodup :
    ∀ (m : List Statistics) (s : Statistics), s ∈ m → (m.map Statistics.name).Nodup →
      findStats s.name m = some s := by
  intro m
  induction m with
  | nil => intro s hs; cases hs
  | cons t rest ih =>
    intro s hs hnod
    rcases List.mem_cons.mp hs with rfl | hs'
    · rw [findStats, List.find?_cons_of_pos]
      simp
    · have hne : t.name ≠ s.name := by
        intro he
        have : s.name ∈ rest.map Statistics.name := List.mem_map_of_mem _ hs'
        rw [← he] at this
        exact (List.nodup_cons.mp (by simpa using hnod)).1 this
      rw [findStats, List.find?_cons_of_neg]
      · exact ih s hs' (List.nodup_cons.mp (by simpa using hnod)).2
      · simp [hne]

theorem charListLe_total : ∀ x y : List Char, charListLe x y = true ∨ charListLe y x = true := by
  intro x
  induction x with
  | nil => intro y; left; rfl
  | cons a as ih =>
    intro y
    cases y with
    | nil => right; rfl
    | cons b bs =>
      by_cases hab : a = b
      · subst hab
        rcases ih bs with h | h
        · left; simpa [charListLe] using h
        · right; simpa [charListLe] using h
      · rcases lt_or_gt_of_ne hab with h | h
        · left; simp [charListLe, hab, h]
        · right
          simp [charListLe, Ne.symm hab]
          exact h

theorem charListLe_trans :
    ∀ x y z : List Char, charListLe x y = true → charListLe y z = true →
      charListLe x z = true := by
  intro x
  induction x with
  | nil => intro y z _ _; rfl
  | cons a as ih =>
    intro y z hxy hyz
    cases y with
    | nil => simp [charListLe] at hxy
    | cons b bs =>
      cases z with
      | nil => simp [charListLe] at hyz
      | cons c cs =>
        by_cases hab : a = b <;> by_cases hbc : b = c
        · subst hab; subst hbc
          simp only [charListLe, if_pos rfl] at hxy hyz ⊢
          exact ih bs cs hxy hyz
        · subst hab
          simp only [charListLe, if_pos rfl, if_neg hbc] at hyz ⊢
          exact hyz
        · subst hbc
          simp only [charListLe, if_neg hab] at hxy ⊢
          exact hxy
        · have h1 : a < b := by
            have := hxy
            simp only [charListLe, if_neg hab] at this
            exact of_decide_eq_true this
          have h2 : b < c := by
            have := hyz
            simp only [charListLe, if_neg hbc] at this
            exact of_decide_eq_true this
          have hac : a < c := lt_trans h1 h2
          simp [charListLe, ne_of_lt hac, hac]

/-- C4: the computed statistics agree with the reference aggregation: an
entry appears exactly for the names occurring in records passing the
statistics filter, each entry carries the reference counts and day-totals
obtained by bumping the record's type-side by 1 (count) and by the
duration's day-equivalent (days) per name occurrence, entries are unique
per name and sorted by name — and the spec's concrete two-record example
evaluates to exactly the stated table. -/
theorem c4_statistics_match_reference :
    (∀ (records : List Record) (sft sfm sfy : String) (s : Statistics),
      s ∈ statistics records sft sfm sfy ↔
        (s.name ∈ allNameOccs (records.filter (statsRecordMatches sft sfm sfy)) ∧
          s = refStats s.name (records.filter (statsRecordMatches sft sfm sfy))))
    ∧ (∀ (records : List Record) (sft sfm sfy : String),
        ((statistics records sft sfm sfy).map Statistics.name).Nodup)
    ∧ (∀ (records : List Record) (sft sfm sfy : String),
        (statistics records sft sfm sfy).Pairwise fun a b => nameLe a b = true)
    ∧ statistics
        [{ id := some (.num 1), names := ["A"], date := "2024-01-05", rtype := .overtime,
           duration := .full, created_at := "t1" },
         { id := some (.num 2), names := ["A", "B"], date := "2024-01-06", rtype := .leave,
           duration := .morning, created_at := "t2" }] "all" "all" "all" =
        [{ name := "A", overtimeCount := 1, leaveCount := 1, overtimeDays := 1, leaveDays := 1/2 },
         { name := "B", overtimeCount := 0, leaveCount := 1, overtimeDays := 0, leaveDays := 1/2 }] := by
  refine ⟨?_, ?_, ?_, ?_⟩
  · intro records sft sfm sfy s
    have hM : statistics records sft sfm sfy =
        ((records.filter (statsRecordMatches sft sfm sfy)).foldl
          (fun m r => processRecord r m) []).insertionSort
            (fun a b => nameLe a b = true) := rfl
    have hfind : ∀ n, findStats n ((records.filter (statsRecordMatches sft sfm sfy)).foldl
        (fun m r => processRecord r m) []) =
        if n ∈ allNameOccs (records.filter (statsRecordMatches sft sfm sfy))
        then some (refStats n (records.filter (statsRecordMatches sft sfm sfy))) else none := by
      intro n
      rw [find_foldl_processRecord]
      exact recContrib_none _ n
    have hnodup : (((records.filter (statsRecordMatches sft sfm sfy)).foldl
        (fun m r => processRecord r m) []).map Statistics.name).Nodup :=
      nodup_foldl_processRecord _ [] (by simp)
    rw [hM, List.mem_insertionSort]
    constructor
    · intro hs
      have h1 := findStats_of_mem_nodup _ s hs hnodup
      rw [hfind s.name] at h1
      by_cases hmem : s.name ∈ allNameOccs (records.filter (statsRecordMatches sft sfm sfy))
      · rw [if_pos hmem] at h1
        exact ⟨hmem, (Option.some_inj.mp h1).symm⟩
      · rw [if_neg hmem] at h1
        cases h1
    · rintro ⟨hmem, hs⟩
      have h1 : findStats s.name ((records.filter (statsRecordMatches sft sfm sfy)).foldl
          (fun m r => processRecord r m) []) = some s := by
        rw [hfind s.name, if_pos hmem, ← hs]
      exact List.mem_of_find?_eq_some h1
  · intro records sft sfm sfy
    have hnodup : (((records.filter (statsRecordMatches sft sfm sfy)).foldl
        (fun m r => processRecord r m) []).map Statistics.name).Nodup :=
      nodup_foldl_processRecord _ [] (by simp)
    have hperm := (List.perm_insertionSort (fun a b => nameLe a b = true)
      ((records.filter (statsRecordMatches sft sfm sfy)).foldl
        (fun m r => processRecord r m) [])).map Statistics.name
    exact hperm.nodup_iff.mpr hnodup
  · intro records sft sfm sfy
    haveI : IsTotal Statistics fun a b => nameLe a b = true :=
      ⟨fun a b => charListLe_total _ _⟩
    haveI : IsTrans Statistics fun a b => nameLe a b = true :=
      ⟨fun a b c => charListLe_trans _ _ _⟩
    exact List.sorted_insertionSort _ _
  · simp [statistics, processRecord, mapBump, bump, zeroStats, dayValue, statsRecordMatches,
      nameLe, charListLe]
